import Mathlib

/-!
# ArtReactor Core — shallow embedding and verification

This file embeds the parts of the ArtReactor Core repository that carry its
load-bearing invariants, translated from the Python source:

* `SqliteDatabaseProvider.set` / `.get` — the collection-scoped JSON
  key-value store (`src/artreactor/core/managers/database_manager.py`);
* `SecretManager` — `_make_cache_key`, `get_secret`, `set_secret`
  (`src/artreactor/core/managers/secret_manager.py`);
* `ProjectManager.get_project` (`src/artreactor/core/managers/project_manager.py`);
* `EntityManager` — `get_entity`, `_fetch_from_providers`, `add_entity`,
  `_cache_entity` (`src/artreactor/core/managers/entity_manager.py`) together
  with the URI helpers (`src/artreactor/core/utils/uri_parser.py`);
* `PluginManager` — `load_plugins`, `_load_plugin`, `_scan_for_tools`,
  `shutdown_all` (`src/artreactor/core/managers/plugin_manager.py`).

Modelling conventions:

* Python dicts holding JSON documents become the inductive `PyVal`; a
  non-JSON-serializable Python object is the constructor `PyVal.pyObj`.
  `json.dumps` followed by `json.loads` is the identity on the JSON data
  model, so a successfully stored document is kept as is; a row whose stored
  text no longer decodes is `StoredRow.corrupt`.
* Stateful methods become explicit state passing: each manager method takes
  its caches as arguments and returns the new caches.  Provider (external
  service) calls are counted in an extra `Nat` result so that
  "performs zero provider calls" is a statement about the embedding.
* Async methods are logically sequential coroutines in the source (spec §5),
  so they are embedded as ordinary functions; `try`/`except` blocks become
  `Except` results, with the caller's recovery written out.
* Pydantic `model_dump` + `Model(**data)` round-trips are the identity on the
  typed documents the managers write, so the project and entity caches are
  typed association lists keyed by the same strings the source computes.
-/

namespace ArtReactor

/-! ## Python JSON values (`database_manager.py`) -/

/-- A Python value as stored through the key-value store.  The first six
constructors form the JSON data model that `json.dumps` accepts; `pyObj`
stands for any other Python object, which `json.dumps` rejects with a
`TypeError`. -/
inductive PyVal where
  | pyNone : PyVal
  | pyBool (b : Bool) : PyVal
  | pyInt (n : Int) : PyVal
  | pyStr (s : String) : PyVal
  | pyList (xs : List PyVal) : PyVal
  | pyDict (fields : List (String × PyVal)) : PyVal
  | pyObj (objId : Nat) : PyVal

mutual

/-- Whether `json.dumps` succeeds on the value: true exactly when the value
contains no `pyObj` anywhere. -/
def serializable : PyVal → Bool
  | .pyNone => true
  | .pyBool _ => true
  | .pyInt _ => true
  | .pyStr _ => true
  | .pyList xs => serializableList xs
  | .pyDict fs => serializableFields fs
  | .pyObj _ => false

def serializableList : List PyVal → Bool
  | [] => true
  | x :: xs => serializable x && serializableList xs

def serializableFields : List (String × PyVal) → Bool
  | [] => true
  | f :: fs => serializable f.2 && serializableFields fs

end

/-- Python truthiness (`if cached:`) on the values that can come back from
the store. -/
def pyTruthy : PyVal → Bool
  | .pyNone => false
  | .pyBool b => b
  | .pyInt n => n != 0
  | .pyStr s => !s.isEmpty
  | .pyList xs => !xs.isEmpty
  | .pyDict fs => !fs.isEmpty
  | .pyObj _ => true

/-- `d.get(k)` on a Python dict value: the value bound to `k`, if any. -/
def pyDictGet (v : PyVal) (k : String) : Option PyVal :=
  match v with
  | .pyDict fs => (fs.find? (fun f => decide (f.1 = k))).map (·.2)
  | _ => none

/-- `d.get(k)` when the caller treats the result as an optional string, as
`SecretManager.get_secret` does with `cached.get("value")` (the documents the
manager writes only ever hold strings there). -/
def pyDictGetStr (v : PyVal) (k : String) : Option String :=
  match pyDictGet v k with
  | some (.pyStr s) => some s
  | _ => none

/-- One row of the sqlite `data_store` table.  The stored TEXT column either
still decodes to the document that was written (`doc`) or has been corrupted
on disk and fails `json.loads` (`corrupt`). -/
inductive StoredRow where
  | doc (v : PyVal) : StoredRow
  | corrupt : StoredRow

/-- The `data_store` table: `PRIMARY KEY (collection, key)` means at most one
row per (collection, key); `INSERT OR REPLACE` is modelled by dropping any
old row for the pair. -/
def DataStore := List ((String × String) × StoredRow)

namespace SqliteDatabaseProvider

/-- `SqliteDatabaseProvider.set`: serialize the document (raising `TypeError`
— here `.error` — when `json.dumps` fails, storing nothing), then
`INSERT OR REPLACE` the single row for (collection, key). -/
def set (store : DataStore) (collection key : String) (data : PyVal) :
    Except String DataStore :=
  if serializable data then
    .ok (((collection, key), .doc data) ::
      List.filter (fun row => decide (row.1 ≠ (collection, key))) store)
  else
    .error "Data must be JSON-serializable"

/-- `SqliteDatabaseProvider.get`: select the row for (collection, key);
absent row gives `None`, and a row whose text fails `json.loads` is logged
and also gives `None`, never an error. -/
def get (store : DataStore) (collection key : String) : Option PyVal :=
  match List.find? (fun row => decide (row.1 = (collection, key))) store with
  | some (_, .doc v) => some v
  | some (_, .corrupt) => none
  | none => none

end SqliteDatabaseProvider

/-! ## Typed single-collection caches

`ProjectManager` and `EntityManager` keep their documents in dedicated
collections (`projects_cache`, `entities_cache`) and always round-trip them
through `model_dump` / `Model(**data)`, which is the identity on the typed
document, so those two collections are embedded as typed association lists
with the same string keys the source computes. -/

/-- `db.set` restricted to one collection of typed documents: replace the
row for `k`. -/
def kvSet {α : Type} (cache : List (String × α)) (k : String) (v : α) :
    List (String × α) :=
  (k, v) :: List.filter (fun row => decide (row.1 ≠ k)) cache

/-- `db.get` restricted to one collection of typed documents. -/
def kvGet {α : Type} (cache : List (String × α)) (k : String) : Option α :=
  (List.find? (fun row => decide (row.1 = k)) cache).map (·.2)

/-! ## Secret manager (`secret_manager.py`, `models/domain.py`) -/

/-- `SecretScope` from `models/domain.py`: `USER = "USER"`,
`PROJECT = "PROJECT"`. -/
inductive SecretScope where
  | USER : SecretScope
  | PROJECT : SecretScope
deriving DecidableEq, Repr

/-- The `.value` of a `SecretScope` member. -/
def SecretScope.value : SecretScope → String
  | .USER => "USER"
  | .PROJECT => "PROJECT"

/-- The `Secret` pydantic model. -/
structure Secret where
  key : String
  value : String
  scope : SecretScope
  project : Option String
deriving DecidableEq, Repr

/-- An external `SecretProvider` (Vault, AWS, ...): `get_secret` and
`set_secret` as pure functions of the request — a shallow embedding of the
duck-typed provider protocol. -/
structure SecretProvider where
  get_secret : String → SecretScope → Option String → Option Secret
  set_secret : Secret → Bool

namespace SecretManager

def CACHE_COLLECTION : String := "secrets_cache"

/-- How Python's f-string renders the `project` argument inside
`_make_cache_key`: `None` renders as the string `"None"`. -/
def fstrOfProjectArg : Option String → String
  | some p => p
  | none => "None"

/-- `SecretManager._make_cache_key`:
`project_val = project if scope == SecretScope.PROJECT else ""` followed by
`f"{key}:{scope.value}:{project_val}"`. -/
def _make_cache_key (key : String) (scope : SecretScope)
    (project : Option String) : String :=
  let project_val :=
    if scope = SecretScope.PROJECT then fstrOfProjectArg project else ""
  key ++ ":" ++ scope.value ++ ":" ++ project_val

/-- The document `_cache_secret` writes: key/value/scope/project, with
`secret.project or ""` mapping `None` (and `""`) to `""`. -/
def secretDoc (s : Secret) : PyVal :=
  .pyDict [("key", .pyStr s.key), ("value", .pyStr s.value),
           ("scope", .pyStr s.scope.value),
           ("project", .pyStr (s.project.getD ""))]

/-- `SecretManager._cache_secret`: `db.set` of the secret's document under
the secret's own cache key.  The document is a dict of strings, so the
serializability check in `db.set` always passes; the `.error` branch is
unreachable. -/
def _cache_secret (db : DataStore) (s : Secret) : DataStore :=
  match SqliteDatabaseProvider.set db CACHE_COLLECTION
      (_make_cache_key s.key s.scope s.project) (secretDoc s) with
  | .ok db' => db'
  | .error _ => db

/-- `os.environ.get(key)` fallback: only consulted for USER scope. -/
def envFallback (environ : String → Option String) (key : String)
    (scope : SecretScope) : Option String :=
  if scope = SecretScope.USER then environ key else none

/-- The part of `get_secret` after the cache check (lines 115-126): consult
the provider if configured (caching a non-empty result under the returned
secret's own key), then fall back to the environment for USER scope.
The `Nat` counts provider calls made. -/
def getSecretAfterCache (provider : Option SecretProvider)
    (environ : String → Option String) (db : DataStore) (key : String)
    (scope : SecretScope) (project : Option String) :
    Option String × DataStore × Nat :=
  match provider with
  | some p =>
    match p.get_secret key scope project with
    | some secret => (some secret.value, _cache_secret db secret, 1)
    | none => (envFallback environ key scope, db, 1)
  | none => (envFallback environ key scope, db, 0)

/-- `SecretManager.get_secret`: cache first (`if cached:` is Python
truthiness; the hit returns `cached.get("value")` and makes no provider
call), then provider, then environment fallback for USER scope. -/
def get_secret (provider : Option SecretProvider)
    (environ : String → Option String) (db : DataStore) (key : String)
    (scope : SecretScope) (project : Option String) :
    Option String × DataStore × Nat :=
  let cache_key := _make_cache_key key scope project
  match SqliteDatabaseProvider.get db CACHE_COLLECTION cache_key with
  | some cached =>
    if pyTruthy cached then (pyDictGetStr cached "value", db, 0)
    else getSecretAfterCache provider environ db key scope project
  | none => getSecretAfterCache provider environ db key scope project

/-- `SecretManager.set_secret`: with a provider, write to it first and
return `False` with no cache write when it refuses; otherwise (provider
accepted, or no provider) always cache locally and return `True`. -/
def set_secret (provider : Option SecretProvider) (db : DataStore)
    (key value : String) (scope : SecretScope) (project : Option String) :
    Bool × DataStore :=
  let secret : Secret := ⟨key, value, scope, project⟩
  match provider with
  | some p =>
    if p.set_secret secret then (true, _cache_secret db secret)
    else (false, db)
  | none => (true, _cache_secret db secret)

end SecretManager

/-! ## Entity URIs (`core/utils/uri_parser.py`) and domain models -/

/-- A parsed `entity://` URI (`EntityURI` in `uri_parser.py`).  The managers
always pass URIs through `parse_entity_uri`, which inverts
`build_entity_uri`, so URIs are embedded in parsed form. -/
structure EntityURI where
  project : String
  entity_type : String
  path : String
  version : Option String
deriving DecidableEq, Repr

/-- `get_entity_cache_key`: the base URI with any version qualifier
stripped, `f"entity://{parsed.project}/{parsed.entity_type}/{parsed.path}"`. -/
def get_entity_cache_key (u : EntityURI) : String :=
  "entity://" ++ u.project ++ "/" ++ u.entity_type ++ "/" ++ u.path

/-- A `Version` of an entity (`models/domain.py`).  The optional
version-control / software / env-var payloads do not influence any manager
control flow and are represented by the `dependencies` map alone. -/
structure Version where
  id : String
  dependencies : List (String × String) := []
deriving DecidableEq, Repr

/-- The `Entity` pydantic model (`models/domain.py`). -/
structure Entity where
  uri : EntityURI
  name : String
  project_name : String
  type : String
  description : Option String := none
  versions : List Version := []
deriving DecidableEq, Repr

/-- The `Project` pydantic model (`models/domain.py`); `created_at` and the
workflow payloads play no role in the cache logic and are kept as data. -/
structure Project where
  name : String
  path : String
  description : Option String := none
deriving DecidableEq, Repr

/-- The external project-manager provider (Kitsu/Ftrack/ShotGrid adapter)
behind both `ProjectManager` and `EntityManager`: each operation as a pure
function of the request.  `prefetch_entities_for_project` returning `none`
models the call raising (its failure is caught and logged by
`get_project`). -/
structure ProjectManagerProvider where
  fetch_project : String → Option Project
  prefetch_entities_for_project : String → Option (List Entity)
  get_entity : EntityURI → Option Entity
  get_version : EntityURI → String → Option Version
  create_entity : Entity → Entity

/-- The `entities_cache` collection: base URI string → entity document. -/
def EntityCache := List (String × Entity)

/-- The `projects_cache` collection: project name → project document. -/
def ProjectCache := List (String × Project)

/-! ## Entity manager (`entity_manager.py`) -/

namespace EntityManager

def CACHE_COLLECTION : String := "entities_cache"

/-- `EntityManager._cache_entity`: store the entity's `model_dump` under the
base URI of `entity.uri` (version parameter stripped). -/
def _cache_entity (cache : EntityCache) (entity : Entity) : EntityCache :=
  kvSet cache (get_entity_cache_key entity.uri) entity

/-- `uri` with the version qualifier dropped: what
`Entity(uri=base_uri, ...)` records after
`base_uri = get_entity_cache_key(uri)`. -/
def baseOf (u : EntityURI) : EntityURI :=
  { u with version := none }

/-- `s.strip("/")` on a path string. -/
def stripSlashes (s : String) : String :=
  String.mk (((s.toList.dropWhile (· = '/')).reverse.dropWhile (· = '/')).reverse)

/-- Entity name extraction in the minimal-entity branch of
`_fetch_from_providers`: strip slashes from `parsed.path`, take the last
`/`-separated component, and default to `f"{parsed.entity_type}_unknown"`
when empty. -/
def entityNameFromPath (path entity_type : String) : String :=
  let entity_name := stripSlashes path
  let entity_name :=
    if entity_name.contains '/' then ((entity_name.splitOn "/").getLastD "")
    else entity_name
  if entity_name = "" then entity_type ++ "_unknown" else entity_name

/-- `EntityManager._fetch_from_providers`.  Returns the result, the new
cache and the number of provider calls made.  With a specific `version`:
verify it via `provider.get_version`, then try the full
`provider.get_entity`, caching the full entity and returning a copy filtered
to the requested version; if the full fetch fails, synthesize, cache and
return a minimal entity holding just the fetched version.  Without a
version: fetch, cache and return the full entity. -/
def _fetch_from_providers (provider : Option ProjectManagerProvider)
    (cache : EntityCache) (uri : EntityURI) (version : Option String) :
    Option Entity × EntityCache × Nat :=
  match provider with
  | none => (none, cache, 0)
  | some p =>
    match version with
    | some v =>
      match p.get_version uri v with
      | none => (none, cache, 1)
      | some version_obj =>
        match p.get_entity uri with
        | some entity =>
          let cache1 := _cache_entity cache entity
          let filtered_entity : Entity :=
            { uri := baseOf uri, name := entity.name,
              project_name := entity.project_name, type := entity.type,
              description := entity.description,
              versions := entity.versions.filter (fun w => decide (w.id = v)) }
          (some filtered_entity, cache1, 2)
        | none =>
          let minimal_entity : Entity :=
            { uri := baseOf uri,
              name := entityNameFromPath uri.path uri.entity_type,
              project_name := uri.project, type := uri.entity_type,
              versions := [version_obj] }
          (some minimal_entity, _cache_entity cache minimal_entity, 2)
    | none =>
      match p.get_entity uri with
      | some entity => (some entity, _cache_entity cache entity, 1)
      | none => (none, cache, 1)

/-- `EntityManager.get_entity`: look up the base-URI key in the cache.  On a
hit with a requested version, filter the cached union to that version,
falling back to a targeted provider fetch when the version is absent from
the union.  On a miss, `_fetch_from_providers(uri)` is called with its
`version` parameter left at `None` (source line 76). -/
def get_entity (provider : Option ProjectManagerProvider)
    (cache : EntityCache) (uri : EntityURI) :
    Option Entity × EntityCache × Nat :=
  let base_uri := get_entity_cache_key uri
  match kvGet cache base_uri with
  | some cached =>
    match uri.version with
    | some v =>
      let vs := cached.versions.filter (fun w => decide (w.id = v))
      if vs.isEmpty then _fetch_from_providers provider cache uri (some v)
      else (some { cached with versions := vs }, cache, 0)
    | none => (some cached, cache, 0)
  | none => _fetch_from_providers provider cache uri none

/-- `EntityManager.add_entity`: always cache the passed entity locally (a
wholesale `db.set` under its base-URI key); when `publish` is true and a
provider is configured, additionally push it to the provider and re-cache
the provider's result; finally emit `entity.added`.  Returns the resulting
entity, the new cache, and the emitted event names in order. -/
def add_entity (provider : Option ProjectManagerProvider)
    (cache : EntityCache) (entity : Entity) (publish : Bool) :
    Entity × EntityCache × List String :=
  let cache1 := _cache_entity cache entity
  match publish, provider with
  | true, some p =>
    let entity2 := p.create_entity entity
    (entity2, _cache_entity cache1 entity2, ["entity.added"])
  | _, _ => (entity, cache1, ["entity.added"])

end EntityManager

/-! ## Project manager (`project_manager.py`) -/

namespace ProjectManager

def CACHE_COLLECTION : String := "projects_cache"

/-- `ProjectManager._cache_project`: store the project under its own
name. -/
def _cache_project (cache : ProjectCache) (project : Project) :
    ProjectCache :=
  kvSet cache project.name project

/-- `ProjectManager._cache_entities`: write each prefetched entity into the
shared `entities_cache` collection under its base-URI key. -/
def _cache_entities (cache : EntityCache) (entities : List Entity) :
    EntityCache :=
  entities.foldl
    (fun c entity => kvSet c (get_entity_cache_key entity.uri) entity) cache

/-- `ProjectManager.get_project`: cache hit returns immediately with no
provider call; on a miss with a provider, fetch the project, cache it, then
best-effort prefetch the project's entities into the entity cache (a
prefetch failure is logged and the project still returned).  Returns the
result, the new (project, entity) caches, and the number of provider calls
made. -/
def get_project (provider : Option ProjectManagerProvider)
    (projects : ProjectCache) (entities : EntityCache) (name : String) :
    Option Project × (ProjectCache × EntityCache) × Nat :=
  match kvGet projects name with
  | some cached => (some cached, (projects, entities), 0)
  | none =>
    match provider with
    | some p =>
      match p.fetch_project name with
      | some project =>
        let projects1 := _cache_project projects project
        match p.prefetch_entities_for_project name with
        | some es => (some project, (projects1, _cache_entities entities es), 2)
        | none => (some project, (projects1, entities), 2)
      | none => (none, (projects, entities), 1)
    | none => (none, (projects, entities), 0)

end ProjectManager

/-! ## Plugin lifecycle engine (`plugin_manager.py`, `models/plugin.py`,
`core/decorators.py`) -/

/-- `PluginType` from `models/plugin.py`. -/
inductive PluginType where
  | CORE | ROUTER | APP | MODEL | AGENT | UI
deriving DecidableEq, Repr

/-- `PluginTiming` from `models/plugin.py`. -/
inductive PluginTiming where
  | PRE_INIT | DEFAULT | AFTER_INIT
deriving DecidableEq, Repr

/-- `PluginManifest` (`models/plugin.py`), restricted to the fields that
drive the lifecycle engine's control flow.  `description`, `entry_point`,
`config`, `dependencies`, `path` and `skill` are carried through unchanged
by the loader; entry-point resolution and dynamic import are summarized in
`PluginImpl` below. -/
structure PluginManifest where
  name : String
  version : String := ""
  type : PluginType
  timing : PluginTiming := PluginTiming.DEFAULT
  priority : Int := 0
deriving DecidableEq, Repr

/-- `ToolDefinition` (`core/decorators.py`): the callable reference is
opaque to the lifecycle engine and omitted. -/
structure ToolDefinition where
  name : String
  description : Option String
deriving DecidableEq, Repr

/-- One method of a plugin instance carrying the `@tool` marker
(`_is_tool = True`): its attribute name on the instance, the optional
`_tool_name` / `_tool_description` overrides, and its docstring
(`inspect.getdoc`). -/
structure ToolMethod where
  methodName : String
  tool_name : Option String := none
  tool_description : Option String := none
  docstring : Option String := none
deriving DecidableEq, Repr

/-- The resolved tool name of a marked method:
`getattr(method, "_tool_name", None) or name`. -/
def ToolMethod.resolvedName (m : ToolMethod) : String :=
  m.tool_name.getD m.methodName

/-- What dynamic loading of a plugin's code unit produces, abstracted per
plugin name: the tool-marked methods found by `inspect.getmembers` on the
instance (in attribute-name order), and whether entry-point resolution,
module execution, class discovery, instantiation and the async `initialize`
hook all succeed (`initOk`).  Any exception in those steps aborts that one
manifest before the tool scan. -/
structure PluginImpl where
  toolMethods : List ToolMethod := []
  initOk : Bool := true

/-- The `PluginManager` mutable state touched by loading: the plugin
registry (name → instance, whose observable content here is its extracted
tool list), the manifest registry, and the global load-order list. -/
structure PMState where
  plugins : List (String × List ToolDefinition) := []
  manifests : List (String × PluginManifest) := []
  load_order : List String := []
deriving DecidableEq, Repr

/-- `manifest.name in self.plugins`. -/
def containsName (plugins : List (String × List ToolDefinition))
    (n : String) : Bool :=
  plugins.any (fun p => decide (p.1 = n))

namespace PluginManager

/-- The recursive loop of `_scan_for_tools`: walk the marked methods in
order, resolving each tool name and appending a `ToolDefinition` to the
accumulated `plugin.tools`, raising `ValueError` on a tool name already
accumulated for this same plugin instance. -/
def scanToolsLoop (tools : List ToolDefinition) :
    List ToolMethod → Except String (List ToolDefinition)
  | [] => .ok tools
  | m :: rest =>
    let tool_name := m.resolvedName
    if tools.any (fun t => decide (t.name = tool_name)) then
      .error ("Duplicate tool name " ++ tool_name)
    else
      scanToolsLoop
        (tools ++ [⟨tool_name, m.tool_description.orElse (fun _ => m.docstring)⟩])
        rest

/-- `PluginManager._scan_for_tools` on a fresh instance
(`plugin.tools = []`). -/
def _scan_for_tools (methods : List ToolMethod) :
    Except String (List ToolDefinition) :=
  scanToolsLoop [] methods

/-- `PluginManager._load_plugin`: resolve/execute the code unit,
instantiate and initialize (all summarized by `initOk`; any exception there
is a hard failure for the manifest before registration), then scan for
tools (`ValueError` on an intra-plugin duplicate aborts before
registration); only after all of that register the instance, the manifest,
and append the name to the global load order. -/
def _load_plugin (impls : String → PluginImpl) (m : PluginManifest)
    (s : PMState) : Except String PMState :=
  let impl := impls m.name
  if impl.initOk then
    match _scan_for_tools impl.toolMethods with
    | .error e => .error e
    | .ok tools =>
      .ok { plugins := s.plugins ++ [(m.name, tools)],
            manifests := s.manifests ++ [(m.name, m)],
            load_order := s.load_order ++ [m.name] }
  else .error "Failed to initialize plugin"

/-- Stable insert for the descending-priority sort: keep going past
elements of strictly greater priority, so an inserted element lands after
every strictly greater one and before every equal-or-smaller one. -/
def insertByPriority (a : PluginManifest) :
    List PluginManifest → List PluginManifest
  | [] => [a]
  | x :: xs =>
    if a.priority < x.priority then x :: insertByPriority a xs
    else a :: x :: xs

/-- `to_load.sort(key=lambda m: m.priority, reverse=True)`: Python's sort is
stable, and with `reverse=True` equal-priority elements still keep their
original order.  A stable sort for a given total preorder is unique, so
this stable insertion sort is that function. -/
def sortByPriorityDesc : List PluginManifest → List PluginManifest
  | [] => []
  | a :: rest => insertByPriority a (sortByPriorityDesc rest)

/-- The manifests one `load_plugins` call iterates, in iteration order:
discovered manifests filtered to the phase's timing, stably sorted by
priority descending. -/
def phaseLoadSequence (discovered : List PluginManifest)
    (timing : PluginTiming) : List PluginManifest :=
  sortByPriorityDesc (discovered.filter (fun m => decide (m.timing = timing)))

/-- One iteration of the `load_plugins` loop: skip a name already present
in the plugin registry; otherwise run `_load_plugin`, catching and logging
a failure (which therefore leaves the state unchanged and does not stop the
remaining manifests). -/
def loadStep (impls : String → PluginImpl) (st : PMState)
    (m : PluginManifest) : PMState :=
  if containsName st.plugins m.name then st
  else
    match _load_plugin impls m st with
    | .ok st' => st'
    | .error _ => st

/-- `PluginManager.load_plugins`: iterate the phase's sorted manifests in
order, applying `loadStep` to each.  `discovered` is the (re-)discovery
result, stable across calls for an unchanged filesystem. -/
def load_plugins (impls : String → PluginImpl)
    (discovered : List PluginManifest) (timing : PluginTiming)
    (s : PMState) : PMState :=
  (phaseLoadSequence discovered timing).foldl (loadStep impls) s

/-- `PluginManager.shutdown_all`: walk the recorded load order in reverse,
invoking `shutdown` on each name still present in the registry; the
`try`/`except` around each hook means the loop continues past a raising
hook.  `shutdownRaises` says which hooks raise; the result is the invocation
trace — each invoked plugin name paired with whether its hook raised (and
was logged). -/
def shutdown_all (shutdownRaises : String → Bool) (s : PMState) :
    List (String × Bool) :=
  s.load_order.reverse.filterMap
    (fun n =>
      if containsName s.plugins n then some (n, shutdownRaises n) else none)

end PluginManager

/-! ## Association-list lemmas shared by the cache proofs -/

theorem find?_key_filter_ne {α β : Type} [DecidableEq α]
    (l : List (α × β)) (k k' : α) (h : k' ≠ k) :
    List.find? (fun row => decide (row.1 = k))
        (List.filter (fun row => decide (row.1 ≠ k')) l)
      = List.find? (fun row => decide (row.1 = k)) l := by
  induction l with
  | nil => rfl
  | cons a l ih =>
    rw [List.filter_cons]
    by_cases ha' : a.1 = k'
    · rw [if_neg (by simp [ha'])]
      rw [ih, List.find?_cons_of_neg _ (by simp [ha', h])]
    · rw [if_pos (by simp [ha'])]
      by_cases ha : a.1 = k
      · rw [List.find?_cons_of_pos _ (by simp [ha]),
          List.find?_cons_of_pos _ (by simp [ha])]
      · rw [List.find?_cons_of_neg _ (by simp [ha]),
          List.find?_cons_of_neg _ (by simp [ha]), ih]

theorem kvGet_kvSet_same {α : Type} (cache : List (String × α))
    (k : String) (v : α) : kvGet (kvSet cache k v) k = some v := by
  unfold kvGet kvSet
  rw [List.find?_cons_of_pos _ (by simp)]
  rfl

theorem kvGet_kvSet_ne {α : Type} (cache : List (String × α))
    (k k' : String) (v : α) (h : k' ≠ k) :
    kvGet (kvSet cache k' v) k = kvGet cache k := by
  unfold kvGet kvSet
  rw [List.find?_cons_of_neg _ (by simpa using h),
    find?_key_filter_ne _ _ _ h]

/-! ## C8 — key-value store round trip -/

/-- C8: for every collection `c`, key `k` and JSON-serializable document
`v`, `set(c, k, v)` followed by `get(c, k)` returns a document equal to `v`;
`get(c, k)` on a key that was never set returns absent (absent on the empty
store, and `set` of a different (collection, key) pair preserves what
`get(c, k)` sees); a non-serializable document is rejected at `set` with a
`TypeError`, storing nothing (the `.error` result carries no new store). -/
theorem kv_store_roundtrip_c8 (store : DataStore) (c k : String) (v : PyVal) :
    (serializable v = true →
      ∃ store', SqliteDatabaseProvider.set store c k v = .ok store' ∧
        SqliteDatabaseProvider.get store' c k = some v) ∧
    SqliteDatabaseProvider.get [] c k = none ∧
    (∀ (c' k' : String) (v' : PyVal) (store' : DataStore),
      (c', k') ≠ (c, k) →
      SqliteDatabaseProvider.set store c' k' v' = .ok store' →
      SqliteDatabaseProvider.get store' c k =
        SqliteDatabaseProvider.get store c k) ∧
    (serializable v = false →
      SqliteDatabaseProvider.set store c k v = .error
        "Data must be JSON-serializable") := by
  refine ⟨fun hser => ?_, rfl, fun c' k' v' store' hne hset => ?_, fun hser => ?_⟩
  · refine ⟨((c, k), .doc v) ::
        List.filter (fun row => decide (row.1 ≠ (c, k))) store, ?_, ?_⟩
    · unfold SqliteDatabaseProvider.set
      rw [if_pos hser]
    · unfold SqliteDatabaseProvider.get
      rw [List.find?_cons_of_pos _ (by simp)]
  · unfold SqliteDatabaseProvider.set at hset
    by_cases hser' : serializable v' = true
    · rw [if_pos hser'] at hset
      cases hset
      unfold SqliteDatabaseProvider.get
      rw [List.find?_cons_of_neg _ (by simpa using hne),
        find?_key_filter_ne _ _ _ hne]
    · rw [if_neg hser'] at hset
      simp at hset
  · unfold SqliteDatabaseProvider.set
    rw [if_neg (by simp [hser])]

/-- Witness for C8 at a concrete input. -/
theorem kv_store_roundtrip_c8_witness :
    (∃ store', SqliteDatabaseProvider.set [] "col" "k" (.pyStr "x")
        = .ok store' ∧
      SqliteDatabaseProvider.get store' "col" "k" = some (.pyStr "x")) ∧
    SqliteDatabaseProvider.set [] "col" "k" (.pyObj 0) = .error
      "Data must be JSON-serializable" :=
  ⟨(kv_store_roundtrip_c8 [] "col" "k" (.pyStr "x")).1 rfl,
   (kv_store_roundtrip_c8 [] "col" "k" (.pyObj 0)).2.2.2 rfl⟩

/-! ## Secret-manager lemmas -/

/-- The document `_cache_secret` writes is a non-empty dict of strings, so
the serializability check passes and the write lands under the secret's own
cache key; reading that key back gives the document. -/
theorem get_after_cache_secret (db : DataStore) (s : Secret) :
    SqliteDatabaseProvider.get (SecretManager._cache_secret db s)
        SecretManager.CACHE_COLLECTION
        (SecretManager._make_cache_key s.key s.scope s.project)
      = some (SecretManager.secretDoc s) := by
  have hcache : SecretManager._cache_secret db s =
      ((SecretManager.CACHE_COLLECTION,
        SecretManager._make_cache_key s.key s.scope s.project),
       StoredRow.doc (SecretManager.secretDoc s)) ::
      List.filter (fun row => decide (row.1 ≠ (SecretManager.CACHE_COLLECTION,
        SecretManager._make_cache_key s.key s.scope s.project))) db := rfl
  rw [hcache]
  unfold SqliteDatabaseProvider.get
  rw [List.find?_cons_of_pos _ (by simp)]

/-- Reading `"value"` out of a written secret document recovers the
secret's value, and the document is Python-truthy. -/
theorem secretDoc_value (s : Secret) :
    pyTruthy (SecretManager.secretDoc s) = true ∧
    pyDictGetStr (SecretManager.secretDoc s) "value" = some s.value := by
  exact ⟨rfl, by simp [SecretManager.secretDoc, pyDictGetStr, pyDictGet]⟩

/-! ## C7 — provider-gated secret writes -/

/-- C7: with a configured provider that rejects the write,
`SecretManager.set_secret` returns `False` and leaves the cache untouched;
when the provider accepts, or when no provider is configured, the secret is
cached (the secrets collection afterwards holds its document under its
cache key) and `set_secret` returns `True`. -/
theorem set_secret_provider_gate_c7 (p : SecretProvider) (db : DataStore)
    (key value : String) (scope : SecretScope) (project : Option String) :
    (p.set_secret ⟨key, value, scope, project⟩ = false →
      SecretManager.set_secret (some p) db key value scope project
        = (false, db)) ∧
    (p.set_secret ⟨key, value, scope, project⟩ = true →
      SecretManager.set_secret (some p) db key value scope project
        = (true, SecretManager._cache_secret db ⟨key, value, scope, project⟩) ∧
      SqliteDatabaseProvider.get
          (SecretManager.set_secret (some p) db key value scope project).2
          SecretManager.CACHE_COLLECTION
          (SecretManager._make_cache_key key scope project)
        = some (SecretManager.secretDoc ⟨key, value, scope, project⟩)) ∧
    (SecretManager.set_secret none db key value scope project
        = (true, SecretManager._cache_secret db ⟨key, value, scope, project⟩) ∧
      SqliteDatabaseProvider.get
          (SecretManager.set_secret none db key value scope project).2
          SecretManager.CACHE_COLLECTION
          (SecretManager._make_cache_key key scope project)
        = some (SecretManager.secretDoc ⟨key, value, scope, project⟩)) := by
  have hset : ∀ b, p.set_secret ⟨key, value, scope, project⟩ = b →
      SecretManager.set_secret (some p) db key value scope project =
        (if b then
          (true, SecretManager._cache_secret db ⟨key, value, scope, project⟩)
        else (false, db)) := by
    intro b hb
    cases b <;> simp [SecretManager.set_secret, hb]
  refine ⟨fun hrej => ?_, fun hacc => ⟨?_, ?_⟩, ?_, ?_⟩
  · simpa using hset false hrej
  · simpa using hset true hacc
  · rw [show (SecretManager.set_secret (some p) db key value scope project).2
        = SecretManager._cache_secret db ⟨key, value, scope, project⟩ from
      by rw [hset true hacc]; rfl]
    exact get_after_cache_secret db ⟨key, value, scope, project⟩
  · rfl
  · exact get_after_cache_secret db ⟨key, value, scope, project⟩

/-- Witness for C7 at concrete inputs: an always-rejecting provider and an
always-accepting provider. -/
theorem set_secret_provider_gate_c7_witness :
    (SecretManager.set_secret
        (some ⟨fun _ _ _ => none, fun _ => false⟩) [] "K" "v"
        SecretScope.USER none = (false, [])) ∧
    (SecretManager.set_secret
        (some ⟨fun _ _ _ => none, fun _ => true⟩) [] "K" "v"
        SecretScope.USER none).1 = true ∧
    (SecretManager.set_secret none [] "K" "v" SecretScope.USER none).1
      = true := by
  refine ⟨(set_secret_provider_gate_c7 ⟨fun _ _ _ => none, fun _ => false⟩
    [] "K" "v" SecretScope.USER none).1 rfl, ?_, ?_⟩
  · rw [((set_secret_provider_gate_c7 ⟨fun _ _ _ => none, fun _ => true⟩
      [] "K" "v" SecretScope.USER none).2.1 rfl).1]
  · rw [(set_secret_provider_gate_c7 ⟨fun _ _ _ => none, fun _ => false⟩
      [] "K" "v" SecretScope.USER none).2.2.1]

/-- A truthy cache hit in `get_secret` returns `cached.get("value")`
immediately: no provider call, no state change. -/
theorem get_secret_hit (provider : Option SecretProvider)
    (environ : String → Option String) (db : DataStore) (key : String)
    (scope : SecretScope) (project : Option String) (c : PyVal)
    (hget : SqliteDatabaseProvider.get db SecretManager.CACHE_COLLECTION
      (SecretManager._make_cache_key key scope project) = some c)
    (htr : pyTruthy c = true) :
    SecretManager.get_secret provider environ db key scope project
      = (pyDictGetStr c "value", db, 0) := by
  simp [SecretManager.get_secret, hget, htr]

/-- `getSecretAfterCache` never consults the environment for PROJECT
scope. -/
theorem getSecretAfterCache_project_env_free
    (prov : Option SecretProvider) (e1 e2 : String → Option String)
    (db : DataStore) (key : String) (project : Option String) :
    SecretManager.getSecretAfterCache prov e1 db key SecretScope.PROJECT
        project
      = SecretManager.getSecretAfterCache prov e2 db key SecretScope.PROJECT
        project := by
  cases prov with
  | none => simp [SecretManager.getSecretAfterCache, SecretManager.envFallback]
  | some p =>
    cases hp : p.get_secret key SecretScope.PROJECT project <;>
      simp [SecretManager.getSecretAfterCache, hp, SecretManager.envFallback]

/-! ## C9 — environment fallback is USER-scope only -/

/-- C9: a USER-scoped lookup that misses the cache with no provider
configured returns the process environment variable named by the key
(absent when unset); a PROJECT-scoped lookup never consults the
environment — its result is the same under any two environments — and a
PROJECT-scope miss with no provider yields absent. -/
theorem get_secret_env_fallback_c9 (environ : String → Option String)
    (db : DataStore) (key : String) (project : Option String) :
    (SqliteDatabaseProvider.get db SecretManager.CACHE_COLLECTION
        (SecretManager._make_cache_key key SecretScope.USER project) = none →
      SecretManager.get_secret none environ db key SecretScope.USER project
        = (environ key, db, 0)) ∧
    (∀ (provider : Option SecretProvider)
       (environ2 : String → Option String),
      SecretManager.get_secret provider environ db key SecretScope.PROJECT
          project
        = SecretManager.get_secret provider environ2 db key
          SecretScope.PROJECT project) ∧
    (SqliteDatabaseProvider.get db SecretManager.CACHE_COLLECTION
        (SecretManager._make_cache_key key SecretScope.PROJECT project)
        = none →
      SecretManager.get_secret none environ db key SecretScope.PROJECT
          project = (none, db, 0)) := by
  refine ⟨fun hmiss => ?_, fun provider environ2 => ?_, fun hmiss => ?_⟩
  · simp [SecretManager.get_secret, hmiss, SecretManager.getSecretAfterCache,
      SecretManager.envFallback]
  · cases hget : SqliteDatabaseProvider.get db SecretManager.CACHE_COLLECTION
        (SecretManager._make_cache_key key SecretScope.PROJECT project) with
    | some c =>
      by_cases htr : pyTruthy c = true
      · simp [SecretManager.get_secret, hget, htr]
      · simp [SecretManager.get_secret, hget, htr,
          getSecretAfterCache_project_env_free provider environ environ2]
    | none =>
      simp [SecretManager.get_secret, hget,
        getSecretAfterCache_project_env_free provider environ environ2]
  · simp [SecretManager.get_secret, hmiss, SecretManager.getSecretAfterCache,
      SecretManager.envFallback]

/-- Witness for C9 at concrete inputs. -/
theorem get_secret_env_fallback_c9_witness :
    SecretManager.get_secret none (fun k => if k = "K" then some "fromenv"
        else none) [] "K" SecretScope.USER none
      = (some "fromenv", [], 0) ∧
    SecretManager.get_secret none (fun k => if k = "K" then some "fromenv"
        else none) [] "K" SecretScope.PROJECT (some "proj")
      = (none, [], 0) := by
  constructor
  · rw [(get_secret_env_fallback_c9 (fun k => if k = "K" then some "fromenv"
      else none) [] "K" none).1 rfl]
    simp
  · exact (get_secret_env_fallback_c9 (fun k => if k = "K" then some
      "fromenv" else none) [] "K" (some "proj")).2.2 rfl

/-! ## C10 — USER scope ignores the project argument -/

/-- C10: for USER-scoped secrets the project argument is ignored entirely:
the computed cache key is the same for any two project arguments (concretely
`"k:USER:"`, with an empty project component), so `set_secret` under one
project argument followed by `get_secret` under another returns the stored
value whenever the set succeeded. -/
theorem user_scope_ignores_project_c10 (key : String)
    (p1 p2 : Option String) :
    (SecretManager._make_cache_key key SecretScope.USER p1
      = SecretManager._make_cache_key key SecretScope.USER p2) ∧
    (SecretManager._make_cache_key "k" SecretScope.USER (some "proj")
      = "k:USER:") ∧
    (∀ (provider : Option SecretProvider)
       (environ : String → Option String) (db : DataStore) (value : String),
      (SecretManager.set_secret provider db key value SecretScope.USER
        p1).1 = true →
      (SecretManager.get_secret provider environ
          (SecretManager.set_secret provider db key value SecretScope.USER
            p1).2 key SecretScope.USER p2).1 = some value) := by
  refine ⟨rfl, rfl, fun provider environ db value hok => ?_⟩
  have hdb : (SecretManager.set_secret provider db key value
      SecretScope.USER p1).2
      = SecretManager._cache_secret db ⟨key, value, SecretScope.USER, p1⟩ := by
    cases provider with
    | none => rfl
    | some p =>
      cases hp : p.set_secret ⟨key, value, SecretScope.USER, p1⟩ with
      | false =>
        exfalso
        simp [SecretManager.set_secret, hp] at hok
      | true => simp [SecretManager.set_secret, hp]
  rw [hdb]
  have hget : SqliteDatabaseProvider.get
      (SecretManager._cache_secret db ⟨key, value, SecretScope.USER, p1⟩)
      SecretManager.CACHE_COLLECTION
      (SecretManager._make_cache_key key SecretScope.USER p2)
      = some (SecretManager.secretDoc ⟨key, value, SecretScope.USER, p1⟩) :=
    get_after_cache_secret db ⟨key, value, SecretScope.USER, p1⟩
  rw [get_secret_hit provider environ _ key SecretScope.USER p2 _ hget
    (secretDoc_value ⟨key, value, SecretScope.USER, p1⟩).1]
  exact (secretDoc_value ⟨key, value, SecretScope.USER, p1⟩).2

/-- Witness for C10 at concrete inputs. -/
theorem user_scope_ignores_project_c10_witness :
    (SecretManager.get_secret none (fun _ => none)
        (SecretManager.set_secret none [] "k" "u" SecretScope.USER
          (some "p1")).2 "k" SecretScope.USER (some "p2")).1 = some "u" :=
  (user_scope_ignores_project_c10 "k" (some "p1") (some "p2")).2.2
    none (fun _ => none) [] "u" rfl

/-! ## Entity-manager lemmas -/

/-- `add_entity` with `publish=False` (or no provider): cache the entity
wholesale under its base-URI key and emit `entity.added`. -/
theorem add_entity_no_publish (cache : EntityCache) (e : Entity) :
    EntityManager.add_entity none cache e false
      = (e, kvSet cache (get_entity_cache_key e.uri) e, ["entity.added"]) :=
  rfl

/-- An unscoped `get_entity` on a cached key returns the cached entity with
zero provider calls. -/
theorem get_entity_hit_unscoped (provider : Option ProjectManagerProvider)
    (cache : EntityCache) (u : EntityURI) (e : Entity)
    (hu : u.version = none)
    (hget : kvGet cache (get_entity_cache_key u) = some e) :
    EntityManager.get_entity provider cache u = (some e, cache, 0) := by
  simp [EntityManager.get_entity, hget, hu]

/-- A version-scoped `get_entity` whose version is present in the cached
union returns the filter view of the cached entity with zero provider
calls. -/
theorem get_entity_hit_version (provider : Option ProjectManagerProvider)
    (cache : EntityCache) (u : EntityURI) (e : Entity) (v : String)
    (hu : u.version = some v)
    (hget : kvGet cache (get_entity_cache_key u) = some e)
    (hne : (e.versions.filter (fun w => decide (w.id = v))).isEmpty
      = false) :
    EntityManager.get_entity provider cache u
      = (some { e with
          versions := e.versions.filter (fun w => decide (w.id = v)) },
         cache, 0) := by
  simp [EntityManager.get_entity, hget, hu, hne]

/-- A version-scoped `get_entity` whose version is absent from the cached
union, with no provider configured, yields absent. -/
theorem get_entity_hit_version_missing (cache : EntityCache)
    (u : EntityURI) (e : Entity) (v : String)
    (hu : u.version = some v)
    (hget : kvGet cache (get_entity_cache_key u) = some e)
    (hemp : (e.versions.filter (fun w => decide (w.id = v))).isEmpty
      = true) :
    EntityManager.get_entity none cache u = (none, cache, 0) := by
  simp [EntityManager.get_entity, hget, hu, hemp,
    EntityManager._fetch_from_providers]

/-! ## C1 — entity version union (corrected: `add_entity` overwrites) -/

/-- Counterexample to C1 as stated: add the hero entity carrying only
version `v1`, then add it again carrying only version `v2` (same base URI).
The claim promises that an unscoped `get_entity` then returns both versions
and that `get_entity(version=v1)` returns the one version `v1`; in fact the
second `add_entity` replaced the cache row wholesale, so the unscoped read
returns only `v2` and the `v1`-scoped read (no provider) returns `None` —
`v1` was evicted. -/
theorem entity_version_union_c1_counterexample :
    ((EntityManager.get_entity none
        (EntityManager.add_entity none
          (EntityManager.add_entity none []
            ⟨⟨"projectA", "asset", "characters/hero", none⟩, "hero",
             "projectA", "asset", none, [⟨"v1", []⟩]⟩ false).2.1
          ⟨⟨"projectA", "asset", "characters/hero", none⟩, "hero",
           "projectA", "asset", none, [⟨"v2", []⟩]⟩ false).2.1
        ⟨"projectA", "asset", "characters/hero", none⟩).1.map
        (fun e => e.versions.map (·.id)) = some ["v2"]) ∧
    (EntityManager.get_entity none
        (EntityManager.add_entity none
          (EntityManager.add_entity none []
            ⟨⟨"projectA", "asset", "characters/hero", none⟩, "hero",
             "projectA", "asset", none, [⟨"v1", []⟩]⟩ false).2.1
          ⟨⟨"projectA", "asset", "characters/hero", none⟩, "hero",
           "projectA", "asset", none, [⟨"v2", []⟩]⟩ false).2.1
        ⟨"projectA", "asset", "characters/hero", some "v1"⟩).1 = none := by
  constructor <;> rfl

/-- C1 amended: `add_entity` stores the passed entity wholesale under the
base-URI key, replacing any previously cached entry for that URI.  After
adding `e1` then `e2` under the same base URI, an unscoped `get_entity`
returns exactly `e2` (so previously cached versions survive only if the
second entity carries them); a version-scoped read returns exactly the
matching versions of `e2` when the version is among them, and (with no
provider) absent otherwise. -/
theorem entity_add_overwrites_c1_amended (cache : EntityCache)
    (e1 e2 : Entity) (u : EntityURI) (c2 : EntityCache)
    (_hkey : get_entity_cache_key e2.uri = get_entity_cache_key e1.uri)
    (hu : get_entity_cache_key u = get_entity_cache_key e2.uri)
    (hc2 : c2 = (EntityManager.add_entity none
      (EntityManager.add_entity none cache e1 false).2.1 e2 false).2.1) :
    (u.version = none →
      EntityManager.get_entity none c2 u = (some e2, c2, 0)) ∧
    (∀ v, u.version = some v →
      ((e2.versions.filter (fun w => decide (w.id = v))).isEmpty = false →
        EntityManager.get_entity none c2 u
          = (some { e2 with
              versions := e2.versions.filter (fun w => decide (w.id = v)) },
             c2, 0)) ∧
      ((e2.versions.filter (fun w => decide (w.id = v))).isEmpty = true →
        EntityManager.get_entity none c2 u = (none, c2, 0))) := by
  have hget : kvGet c2 (get_entity_cache_key u) = some e2 := by
    rw [hc2, add_entity_no_publish, add_entity_no_publish]
    rw [hu]
    exact kvGet_kvSet_same _ _ _
  exact ⟨fun h0 => get_entity_hit_unscoped none c2 u e2 h0 hget,
    fun v hv => ⟨fun hne => get_entity_hit_version none c2 u e2 v hv hget hne,
      fun hemp => get_entity_hit_version_missing c2 u e2 v hv hget hemp⟩⟩

/-- Witness for the amended C1 at the counterexample's concrete inputs. -/
theorem entity_add_overwrites_c1_amended_witness :
    EntityManager.get_entity none
        (EntityManager.add_entity none
          (EntityManager.add_entity none []
            ⟨⟨"projectA", "asset", "characters/hero", none⟩, "hero",
             "projectA", "asset", none, [⟨"v1", []⟩]⟩ false).2.1
          ⟨⟨"projectA", "asset", "characters/hero", none⟩, "hero",
           "projectA", "asset", none, [⟨"v2", []⟩]⟩ false).2.1
        ⟨"projectA", "asset", "characters/hero", none⟩
      = (some ⟨⟨"projectA", "asset", "characters/hero", none⟩, "hero",
          "projectA", "asset", none, [⟨"v2", []⟩]⟩,
         (EntityManager.add_entity none
          (EntityManager.add_entity none []
            ⟨⟨"projectA", "asset", "characters/hero", none⟩, "hero",
             "projectA", "asset", none, [⟨"v1", []⟩]⟩ false).2.1
          ⟨⟨"projectA", "asset", "characters/hero", none⟩, "hero",
           "projectA", "asset", none, [⟨"v2", []⟩]⟩ false).2.1, 0) :=
  (entity_add_overwrites_c1_amended []
    ⟨⟨"projectA", "asset", "characters/hero", none⟩, "hero", "projectA",
     "asset", none, [⟨"v1", []⟩]⟩
    ⟨⟨"projectA", "asset", "characters/hero", none⟩, "hero", "projectA",
     "asset", none, [⟨"v2", []⟩]⟩
    ⟨"projectA", "asset", "characters/hero", none⟩ _ rfl rfl rfl).1 rfl

/-! ## Project-manager lemmas -/

/-- A cache hit in `get_project` returns immediately: no provider call, no
state change. -/
theorem get_project_hit (provider : Option ProjectManagerProvider)
    (projects : ProjectCache) (entities : EntityCache) (name : String)
    (pr : Project) (h : kvGet projects name = some pr) :
    ProjectManager.get_project provider projects entities name
      = (some pr, (projects, entities), 0) := by
  simp [ProjectManager.get_project, h]

/-- After a successful `get_project` whose result carries the requested
name, the cache row for that name holds the result, so a repeated read is a
pure cache hit with zero provider calls. -/
theorem get_project_repeat (provider : Option ProjectManagerProvider)
    (projects : ProjectCache) (entities : EntityCache) (name : String)
    (pr : Project) (s' : ProjectCache × EntityCache) (n : Nat)
    (hfst : ProjectManager.get_project provider projects entities name
      = (some pr, s', n))
    (hname : pr.name = name) :
    ProjectManager.get_project provider s'.1 s'.2 name
      = (some pr, (s'.1, s'.2), 0) := by
  cases hc : kvGet projects name with
  | some cached =>
    rw [get_project_hit provider projects entities name cached hc] at hfst
    simp only [Prod.mk.injEq] at hfst
    obtain ⟨h1, h2, h3⟩ := hfst
    have hcc : cached = pr := Option.some.inj h1
    subst hcc
    rw [← h2]
    exact get_project_hit provider projects entities name cached hc
  | none =>
    cases provider with
    | none => simp [ProjectManager.get_project, hc] at hfst
    | some p =>
      cases hp : p.fetch_project name with
      | none => simp [ProjectManager.get_project, hc, hp] at hfst
      | some project =>
        have hrun : ∃ ents,
            ProjectManager.get_project (some p) projects entities name
              = (some project,
                (ProjectManager._cache_project projects project, ents), 2) := by
          cases hpre : p.prefetch_entities_for_project name with
          | some es =>
            exact ⟨ProjectManager._cache_entities entities es,
              by simp [ProjectManager.get_project, hc, hp, hpre]⟩
          | none =>
            exact ⟨entities, by simp [ProjectManager.get_project, hc, hp, hpre]⟩
        obtain ⟨ents, hrun⟩ := hrun
        rw [hrun] at hfst
        simp only [Prod.mk.injEq] at hfst
        obtain ⟨h1, h2, h3⟩ := hfst
        have hpp : project = pr := Option.some.inj h1
        subst hpp
        rw [← h2]
        apply get_project_hit
        show kvGet (ProjectManager._cache_project projects project) name
          = some project
        unfold ProjectManager._cache_project
        rw [hname]
        exact kvGet_kvSet_same _ _ _

/-! ## C4 — cache hit short-circuits the provider (corrected: the Entity
manager's version-scoped reads can still call the provider) -/

/-- Counterexample to C4 as stated: the entity cache holds the key
`entity://projectA/asset/hero` (with version `v1` only).  A read of that
same key scoped to version `v2`, with a provider configured, performs two
provider calls (`get_version`, then `get_entity`) even though the key is
present in the cache — so it is not true that every read of a cached key
performs zero external-provider calls. -/
theorem cache_hit_skips_provider_c4_counterexample :
    (kvGet [("entity://projectA/asset/hero",
        (⟨⟨"projectA", "asset", "hero", none⟩, "hero", "projectA", "asset",
          none, [⟨"v1", []⟩]⟩ : Entity))]
      (get_entity_cache_key ⟨"projectA", "asset", "hero", some "v2"⟩)).isSome
      = true ∧
    (EntityManager.get_entity
        (some ⟨fun _ => none, fun _ => none, fun _ => none,
          fun _ _ => some ⟨"v2", []⟩, fun e => e⟩)
        [("entity://projectA/asset/hero",
          (⟨⟨"projectA", "asset", "hero", none⟩, "hero", "projectA", "asset",
            none, [⟨"v1", []⟩]⟩ : Entity))]
        ⟨"projectA", "asset", "hero", some "v2"⟩).2.2 = 2 := by
  constructor <;> rfl

/-- C4 amended: a cache hit short-circuits the provider for the Project and
Secret managers on every read, and for the Entity manager on unscoped reads
and on version-scoped reads whose requested version is present in the
cached union (a version-scoped read whose version is absent from the cached
entry instead performs a targeted provider fetch); a repeated project read
after a successful cache-populating read whose result carries the requested
name performs zero additional provider calls. -/
theorem cache_hit_skips_provider_c4_amended :
    (∀ (provider : Option ProjectManagerProvider) (projects : ProjectCache)
       (entities : EntityCache) (name : String) (pr : Project),
      kvGet projects name = some pr →
      ProjectManager.get_project provider projects entities name
        = (some pr, (projects, entities), 0)) ∧
    (∀ (provider : Option SecretProvider)
       (environ : String → Option String) (db : DataStore) (key : String)
       (scope : SecretScope) (project : Option String) (c : PyVal),
      SqliteDatabaseProvider.get db SecretManager.CACHE_COLLECTION
        (SecretManager._make_cache_key key scope project) = some c →
      pyTruthy c = true →
      SecretManager.get_secret provider environ db key scope project
        = (pyDictGetStr c "value", db, 0)) ∧
    (∀ (provider : Option ProjectManagerProvider) (cache : EntityCache)
       (u : EntityURI) (e : Entity),
      kvGet cache (get_entity_cache_key u) = some e →
      (u.version = none →
        EntityManager.get_entity provider cache u = (some e, cache, 0)) ∧
      (∀ v, u.version = some v →
        (e.versions.filter (fun w => decide (w.id = v))).isEmpty = false →
        (EntityManager.get_entity provider cache u).2.2 = 0)) ∧
    (∀ (provider : Option ProjectManagerProvider) (projects : ProjectCache)
       (entities : EntityCache) (name : String) (pr : Project)
       (s' : ProjectCache × EntityCache) (n : Nat),
      ProjectManager.get_project provider projects entities name
        = (some pr, s', n) →
      pr.name = name →
      ProjectManager.get_project provider s'.1 s'.2 name
        = (some pr, (s'.1, s'.2), 0)) := by
  refine ⟨fun provider projects entities name pr h =>
      get_project_hit provider projects entities name pr h,
    fun provider environ db key scope project c hget htr =>
      get_secret_hit provider environ db key scope project c hget htr,
    fun provider cache u e hget =>
      ⟨fun h0 => get_entity_hit_unscoped provider cache u e h0 hget,
       fun v hv hne => ?_⟩,
    fun provider projects entities name pr s' n hfst hname =>
      get_project_repeat provider projects entities name pr s' n hfst hname⟩
  rw [get_entity_hit_version provider cache u e v hv hget hne]

/-- Witness for the amended C4 at concrete inputs. -/
theorem cache_hit_skips_provider_c4_amended_witness :
    ProjectManager.get_project none [("p", (⟨"p", "/tmp/p", none⟩ : Project))]
        [] "p"
      = (some ⟨"p", "/tmp/p", none⟩,
         ([("p", (⟨"p", "/tmp/p", none⟩ : Project))], []), 0) ∧
    (EntityManager.get_entity none
        [("entity://projectA/asset/hero",
          (⟨⟨"projectA", "asset", "hero", none⟩, "hero", "projectA",
            "asset", none, [⟨"v1", []⟩]⟩ : Entity))]
        ⟨"projectA", "asset", "hero", some "v1"⟩).2.2 = 0 := by
  constructor
  · exact cache_hit_skips_provider_c4_amended.1 none
      [("p", ⟨"p", "/tmp/p", none⟩)] [] "p" ⟨"p", "/tmp/p", none⟩ rfl
  · exact ((cache_hit_skips_provider_c4_amended.2.2.1 none
      [("entity://projectA/asset/hero",
        ⟨⟨"projectA", "asset", "hero", none⟩, "hero", "projectA", "asset",
         none, [⟨"v1", []⟩]⟩)]
      ⟨"projectA", "asset", "hero", some "v1"⟩
      ⟨⟨"projectA", "asset", "hero", none⟩, "hero", "projectA", "asset",
       none, [⟨"v1", []⟩]⟩ rfl).2 "v1" rfl rfl)

/-! ## Stable-sort lemmas for the priority ordering -/

theorem insertByPriority_perm (a : PluginManifest)
    (l : List PluginManifest) :
    (PluginManager.insertByPriority a l).Perm (a :: l) := by
  induction l with
  | nil => exact List.Perm.refl _
  | cons x xs ih =>
    unfold PluginManager.insertByPriority
    by_cases h : a.priority < x.priority
    · rw [if_pos h]
      exact (ih.cons x).trans (List.Perm.swap a x xs)
    · rw [if_neg h]

theorem sortByPriorityDesc_perm (l : List PluginManifest) :
    (PluginManager.sortByPriorityDesc l).Perm l := by
  induction l with
  | nil => exact List.Perm.refl _
  | cons a rest ih =>
    exact (insertByPriority_perm a _).trans (ih.cons a)

theorem insertByPriority_sorted (a : PluginManifest)
    (l : List PluginManifest)
    (h : l.Pairwise (fun x y => y.priority ≤ x.priority)) :
    (PluginManager.insertByPriority a l).Pairwise
      (fun x y => y.priority ≤ x.priority) := by
  induction l with
  | nil => simp [PluginManager.insertByPriority]
  | cons x xs ih =>
    rw [List.pairwise_cons] at h
    obtain ⟨hx, hxs⟩ := h
    unfold PluginManager.insertByPriority
    by_cases hlt : a.priority < x.priority
    · rw [if_pos hlt]
      rw [List.pairwise_cons]
      refine ⟨fun b hb => ?_, ih hxs⟩
      rcases List.mem_cons.1 (((insertByPriority_perm a xs).mem_iff).1 hb)
        with hb1 | hb1
      · exact hb1 ▸ le_of_lt hlt
      · exact hx b hb1
    · rw [if_neg hlt]
      rw [List.pairwise_cons]
      refine ⟨fun b hb => ?_, List.pairwise_cons.2 ⟨hx, hxs⟩⟩
      rcases List.mem_cons.1 hb with hb1 | hb1
      · exact hb1 ▸ le_of_not_lt hlt
      · exact le_trans (hx b hb1) (le_of_not_lt hlt)

theorem sortByPriorityDesc_sorted (l : List PluginManifest) :
    (PluginManager.sortByPriorityDesc l).Pairwise
      (fun x y => y.priority ≤ x.priority) := by
  induction l with
  | nil => simp [PluginManager.sortByPriorityDesc]
  | cons a rest ih => exact insertByPriority_sorted a _ ih

theorem insertByPriority_filter_stable (a : PluginManifest)
    (l : List PluginManifest) (p : Int) :
    (PluginManager.insertByPriority a l).filter
        (fun m => decide (m.priority = p))
      = List.filter (fun m => decide (m.priority = p)) (a :: l) := by
  induction l with
  | nil => rfl
  | cons x xs ih =>
    unfold PluginManager.insertByPriority
    by_cases hlt : a.priority < x.priority
    · rw [if_pos hlt]
      simp only [List.filter_cons, ih]
      by_cases hap : a.priority = p
      · have hxp : ¬ x.priority = p := by
          intro hxp
          rw [hap, hxp] at hlt
          exact lt_irrefl p hlt
        simp [hap, hxp]
      · simp [hap]
    · rw [if_neg hlt]

theorem sortByPriorityDesc_stable (l : List PluginManifest) (p : Int) :
    (PluginManager.sortByPriorityDesc l).filter
        (fun m => decide (m.priority = p))
      = List.filter (fun m => decide (m.priority = p)) l := by
  induction l with
  | nil => rfl
  | cons a rest ih =>
    unfold PluginManager.sortByPriorityDesc
    rw [insertByPriority_filter_stable, List.filter_cons, List.filter_cons,
      ih]

/-! ## C3 — descending-priority, stable phase ordering -/

/-- C3: one `load_plugins` call iterates exactly `phaseLoadSequence` in
order (so each manifest's load completes before the next begins, the
execution being sequential); that sequence is a permutation of the
discovered manifests of the phase, in it any manifest of strictly greater
priority comes strictly earlier, and manifests of equal priority keep their
discovery order (stability). -/
theorem phase_priority_order_c3 (discovered : List PluginManifest)
    (timing : PluginTiming) :
    (∀ (impls : String → PluginImpl) (s : PMState),
      PluginManager.load_plugins impls discovered timing s
        = (PluginManager.phaseLoadSequence discovered timing).foldl
            (PluginManager.loadStep impls) s) ∧
    (PluginManager.phaseLoadSequence discovered timing).Perm
      (discovered.filter (fun m => decide (m.timing = timing))) ∧
    (∀ (i j : Fin (PluginManager.phaseLoadSequence discovered
        timing).length),
      ((PluginManager.phaseLoadSequence discovered timing).get j).priority <
        ((PluginManager.phaseLoadSequence discovered timing).get i).priority
      → (i : Nat) < (j : Nat)) ∧
    (∀ p : Int,
      (PluginManager.phaseLoadSequence discovered timing).filter
          (fun m => decide (m.priority = p))
        = (discovered.filter (fun m => decide (m.timing = timing))).filter
            (fun m => decide (m.priority = p))) := by
  refine ⟨fun impls s => rfl, sortByPriorityDesc_perm _, fun i j hlt => ?_,
    fun p => sortByPriorityDesc_stable _ p⟩
  by_contra hnot
  rcases Nat.lt_or_ge (j : Nat) (i : Nat) with hji | hij
  · have hpair := List.pairwise_iff_get.1
      (sortByPriorityDesc_sorted
        (discovered.filter (fun m => decide (m.timing = timing)))) j i hji
    exact absurd hlt (not_lt_of_le hpair)
  · have : (i : Nat) = (j : Nat) := Nat.le_antisymm hij (Nat.le_of_not_lt hnot)
    rw [Fin.ext this] at hlt
    exact lt_irrefl _ hlt

/-- Witness for C3 at a concrete input: two same-phase manifests, the
higher priority one discovered second, plus stability checked at a concrete
priority level. -/
theorem phase_priority_order_c3_witness :
    ((0 : Nat) < 1) ∧
    ((PluginManager.phaseLoadSequence
        [⟨"low", "", PluginType.CORE, PluginTiming.DEFAULT, 1⟩,
         ⟨"hi", "", PluginType.CORE, PluginTiming.DEFAULT, 5⟩,
         ⟨"tie", "", PluginType.CORE, PluginTiming.DEFAULT, 1⟩]
        PluginTiming.DEFAULT).filter (fun m => decide (m.priority = 1))
      = [⟨"low", "", PluginType.CORE, PluginTiming.DEFAULT, 1⟩,
         ⟨"tie", "", PluginType.CORE, PluginTiming.DEFAULT, 1⟩]) := by
  constructor
  · exact (phase_priority_order_c3
      [⟨"low", "", PluginType.CORE, PluginTiming.DEFAULT, 1⟩,
       ⟨"hi", "", PluginType.CORE, PluginTiming.DEFAULT, 5⟩,
       ⟨"tie", "", PluginType.CORE, PluginTiming.DEFAULT, 1⟩]
      PluginTiming.DEFAULT).2.2.1 ⟨0, by decide⟩ ⟨1, by decide⟩ (by decide)
  · rw [(phase_priority_order_c3
      [⟨"low", "", PluginType.CORE, PluginTiming.DEFAULT, 1⟩,
       ⟨"hi", "", PluginType.CORE, PluginTiming.DEFAULT, 5⟩,
       ⟨"tie", "", PluginType.CORE, PluginTiming.DEFAULT, 1⟩]
      PluginTiming.DEFAULT).2.2.2 1]
    rfl

/-! ## C5 — reverse-order, best-effort shutdown -/

/-- C5: `shutdown_all` invokes the shutdown hooks in exactly the reverse of
the recorded load order (when every recorded name is registered), and the
set and order of invoked hooks do not depend on which hooks raise — a
raising hook never prevents the remaining hooks from being invoked. -/
theorem shutdown_reverse_c5 (s : PMState) (f g : String → Bool) :
    ((∀ n ∈ s.load_order, containsName s.plugins n = true) →
      (PluginManager.shutdown_all f s).map Prod.fst
        = s.load_order.reverse) ∧
    (PluginManager.shutdown_all f s).map Prod.fst
      = (PluginManager.shutdown_all g s).map Prod.fst := by
  constructor
  · intro h
    unfold PluginManager.shutdown_all
    have key : ∀ (l : List String), (∀ n ∈ l, containsName s.plugins n
        = true) →
        (l.filterMap (fun n => if containsName s.plugins n then
          some (n, f n) else none)).map Prod.fst = l := by
      intro l hl
      induction l with
      | nil => rfl
      | cons a l ih =>
        rw [List.filterMap_cons, if_pos (hl a (List.mem_cons_self a l))]
        rw [List.map_cons, ih (fun n hn => hl n (List.mem_cons_of_mem a hn))]
    exact key s.load_order.reverse
      (fun n hn => h n (List.mem_reverse.1 hn))
  · unfold PluginManager.shutdown_all
    have key : ∀ (l : List String),
        (l.filterMap (fun n => if containsName s.plugins n then
          some (n, f n) else none)).map Prod.fst
        = (l.filterMap (fun n => if containsName s.plugins n then
          some (n, g n) else none)).map Prod.fst := by
      intro l
      induction l with
      | nil => rfl
      | cons a l ih =>
        rw [List.filterMap_cons, List.filterMap_cons]
        by_cases hc : containsName s.plugins a = true
        · rw [if_pos hc, if_pos hc, List.map_cons, List.map_cons, ih]
        · rw [if_neg hc, if_neg hc, ih]
    exact key s.load_order.reverse

/-- Witness for C5 at a concrete input: load order `[A, B, C]`, with `B`'s
shutdown hook raising; the invocation order is still `C`, `B`, `A`. -/
theorem shutdown_reverse_c5_witness :
    (PluginManager.shutdown_all (fun n => n == "B")
        ⟨[("A", []), ("B", []), ("C", [])], [], ["A", "B", "C"]⟩).map
      Prod.fst = ["C", "B", "A"] := by
  rw [(shutdown_reverse_c5
    ⟨[("A", []), ("B", []), ("C", [])], [], ["A", "B", "C"]⟩
    (fun n => n == "B") (fun _ => false)).1 (by decide)]
  rfl

/-! ## Tool-scan lemmas -/

theorem scanLoop_ok_of_nodup (ms : List ToolMethod) :
    ∀ (acc : List ToolDefinition),
    ((acc.map ToolDefinition.name) ++ ms.map ToolMethod.resolvedName).Nodup →
    ∃ tools, PluginManager.scanToolsLoop acc ms = .ok tools := by
  induction ms with
  | nil => exact fun acc _ => ⟨acc, rfl⟩
  | cons m rest ih =>
    intro acc hnd
    have hnotmem : m.resolvedName ∉ acc.map ToolDefinition.name := by
      rw [List.nodup_append] at hnd
      exact fun hmem => hnd.2.2 hmem (List.mem_cons_self _ _)
    have hany : (acc.any (fun t => decide (t.name = m.resolvedName)))
        = false := by
      rw [List.any_eq_false]
      intro t ht
      simp only [decide_eq_true_eq]
      exact fun heq => hnotmem (heq ▸ List.mem_map_of_mem _ ht)
    unfold PluginManager.scanToolsLoop
    rw [if_neg (by simp [hany])]
    apply ih
    rw [List.map_append]
    have hmid : List.map ToolDefinition.name
        [⟨m.resolvedName, m.tool_description.orElse (fun _ => m.docstring)⟩]
        = [m.resolvedName] := rfl
    rw [hmid, ← List.append_cons]
    exact hnd

theorem scanLoop_error_of_dup (ms : List ToolMethod) :
    ∀ (acc : List ToolDefinition), (acc.map ToolDefinition.name).Nodup →
    ¬ ((acc.map ToolDefinition.name) ++
        ms.map ToolMethod.resolvedName).Nodup →
    ∃ e, PluginManager.scanToolsLoop acc ms = .error e := by
  induction ms with
  | nil =>
    intro acc hacc hdup
    exact absurd (by simpa using hacc) hdup
  | cons m rest ih =>
    intro acc hacc hdup
    by_cases hmem : m.resolvedName ∈ acc.map ToolDefinition.name
    · have hany : (acc.any (fun t => decide (t.name = m.resolvedName)))
          = true := by
        rw [List.any_eq_true]
        obtain ⟨t, ht, heq⟩ := List.mem_map.1 hmem
        exact ⟨t, ht, by simp [heq]⟩
      refine ⟨"Duplicate tool name " ++ m.resolvedName, ?_⟩
      unfold PluginManager.scanToolsLoop
      rw [if_pos (by simp [hany])]
    · have hany : (acc.any (fun t => decide (t.name = m.resolvedName)))
          = false := by
        rw [List.any_eq_false]
        intro t ht
        simp only [decide_eq_true_eq]
        exact fun heq => hmem (heq ▸ List.mem_map_of_mem _ ht)
      unfold PluginManager.scanToolsLoop
      rw [if_neg (by simp [hany])]
      apply ih
      · rw [List.map_append, List.nodup_append]
        refine ⟨hacc, by simp, ?_⟩
        intro a ha hb
        simp only [List.map_cons, List.map_nil, List.mem_singleton] at hb
        exact hmem (by rw [← hb]; exact ha)
      · intro hnd
        apply hdup
        rw [List.map_append] at hnd
        have hmid : List.map ToolDefinition.name
            [⟨m.resolvedName,
              m.tool_description.orElse (fun _ => m.docstring)⟩]
            = [m.resolvedName] := rfl
        rw [hmid, ← List.append_cons] at hnd
        exact hnd

/-- `_scan_for_tools` succeeds exactly on a duplicate-free set of resolved
tool names: success under no duplicates. -/
theorem scan_ok_of_nodup (methods : List ToolMethod)
    (h : (methods.map ToolMethod.resolvedName).Nodup) :
    ∃ tools, PluginManager._scan_for_tools methods = .ok tools :=
  scanLoop_ok_of_nodup methods [] (by simpa using h)

/-- `_scan_for_tools` raises on a duplicated resolved tool name within one
plugin instance. -/
theorem scan_error_of_dup (methods : List ToolMethod)
    (h : ¬ (methods.map ToolMethod.resolvedName).Nodup) :
    ∃ e, PluginManager._scan_for_tools methods = .error e :=
  scanLoop_error_of_dup methods [] (by simp) (by simpa using h)

/-! ## Load-loop lemmas -/

/-- Each `loadStep` either leaves the state unchanged or, when the name was
absent and both initialization and the tool scan succeeded, appends the new
plugin to the registry, the manifest registry, and the load order. -/
theorem loadStep_cases (impls : String → PluginImpl) (st : PMState)
    (m : PluginManifest) :
    PluginManager.loadStep impls st m = st ∨
    (containsName st.plugins m.name = false ∧
     ∃ tools,
       PluginManager._scan_for_tools (impls m.name).toolMethods = .ok tools ∧
       PluginManager.loadStep impls st m =
         { plugins := st.plugins ++ [(m.name, tools)],
           manifests := st.manifests ++ [(m.name, m)],
           load_order := st.load_order ++ [m.name] }) := by
  unfold PluginManager.loadStep
  by_cases hc : containsName st.plugins m.name = true
  · rw [if_pos hc]
    left
    rfl
  · rw [if_neg hc]
    unfold PluginManager._load_plugin
    by_cases hinit : (impls m.name).initOk = true
    · rw [if_pos hinit]
      cases hscan : PluginManager._scan_for_tools (impls m.name).toolMethods
        with
      | error e => left; rfl
      | ok tools =>
        right
        exact ⟨by simpa using hc, tools, rfl, rfl⟩
    · rw [if_neg hinit]
      left
      rfl

theorem foldl_contains_mono (impls : String → PluginImpl)
    (ms : List PluginManifest) (n : String) :
    ∀ (st : PMState), containsName st.plugins n = true →
    containsName (ms.foldl (PluginManager.loadStep impls) st).plugins n
      = true := by
  induction ms with
  | nil => exact fun st h => h
  | cons m rest ih =>
    intro st h
    rw [List.foldl_cons]
    apply ih
    rcases loadStep_cases impls st m with hcase | ⟨hfree, tools, hscan, heq⟩
    · rw [hcase]; exact h
    · rw [heq]
      unfold containsName at h ⊢
      rw [List.any_append, h]
      rfl

theorem foldl_order_mono (impls : String → PluginImpl)
    (ms : List PluginManifest) (n : String) :
    ∀ (st : PMState), n ∈ st.load_order →
    n ∈ (ms.foldl (PluginManager.loadStep impls) st).load_order := by
  induction ms with
  | nil => exact fun st h => h
  | cons m rest ih =>
    intro st h
    rw [List.foldl_cons]
    apply ih
    rcases loadStep_cases impls st m with hcase | ⟨hfree, tools, hscan, heq⟩
    · rw [hcase]; exact h
    · rw [heq]
      exact List.mem_append_left _ h

theorem foldl_origin_plugins (impls : String → PluginImpl)
    (ms : List PluginManifest) (n : String) :
    ∀ (st : PMState),
    containsName (ms.foldl (PluginManager.loadStep impls) st).plugins n
      = true →
    containsName st.plugins n = true ∨
    ∃ m' ∈ ms, m'.name = n ∧
      ∃ tools, PluginManager._scan_for_tools (impls n).toolMethods
        = .ok tools := by
  induction ms with
  | nil => exact fun st h => Or.inl h
  | cons m rest ih =>
    intro st h
    rw [List.foldl_cons] at h
    rcases ih _ h with h' | ⟨m', hm', hname, htools⟩
    · rcases loadStep_cases impls st m with hcase | ⟨hfree, tools, hscan, heq⟩
      · rw [hcase] at h'
        exact Or.inl h'
      · rw [heq] at h'
        unfold containsName at h'
        rw [List.any_append] at h'
        rcases Bool.or_eq_true_iff.1 h' with h1 | h1
        · exact Or.inl h1
        · have hnm : m.name = n := by simpa using h1
          exact Or.inr ⟨m, List.mem_cons_self _ _, hnm,
            tools, hnm ▸ hscan⟩
    · exact Or.inr ⟨m', List.mem_cons_of_mem _ hm', hname, htools⟩

theorem foldl_origin_order (impls : String → PluginImpl)
    (ms : List PluginManifest) (n : String) :
    ∀ (st : PMState),
    n ∈ (ms.foldl (PluginManager.loadStep impls) st).load_order →
    n ∈ st.load_order ∨
    ∃ m' ∈ ms, m'.name = n ∧
      ∃ tools, PluginManager._scan_for_tools (impls n).toolMethods
        = .ok tools := by
  induction ms with
  | nil => exact fun st h => Or.inl h
  | cons m rest ih =>
    intro st h
    rw [List.foldl_cons] at h
    rcases ih _ h with h' | ⟨m', hm', hname, htools⟩
    · rcases loadStep_cases impls st m with hcase | ⟨hfree, tools, hscan, heq⟩
      · rw [hcase] at h'
        exact Or.inl h'
      · rw [heq] at h'
        rcases List.mem_append.1 h' with h1 | h1
        · exact Or.inl h1
        · have hnm : m.name = n := by
            have h2 : n = m.name := by simpa using h1
            exact h2.symm
          exact Or.inr ⟨m, List.mem_cons_self _ _, hnm,
            tools, hnm ▸ hscan⟩
    · exact Or.inr ⟨m', List.mem_cons_of_mem _ hm', hname, htools⟩

theorem foldl_count_frozen (impls : String → PluginImpl)
    (ms : List PluginManifest) (n : String) :
    ∀ (st : PMState), containsName st.plugins n = true →
    (ms.foldl (PluginManager.loadStep impls) st).load_order.count n
      = st.load_order.count n := by
  induction ms with
  | nil => exact fun st _ => rfl
  | cons m rest ih =>
    intro st h
    rw [List.foldl_cons]
    rcases loadStep_cases impls st m with hcase | ⟨hfree, tools, hscan, heq⟩
    · rw [hcase]
      exact ih st h
    · have hne : m.name ≠ n := by
        intro heq
        rw [heq] at hfree
        rw [hfree] at h
        exact Bool.false_ne_true h
      have hcontains : containsName (PluginManager.loadStep impls st
          m).plugins n = true := by
        rw [heq]
        unfold containsName at h ⊢
        rw [List.any_append, h]
        rfl
      rw [ih _ hcontains, heq]
      show (st.load_order ++ [m.name]).count n = st.load_order.count n
      have hz : List.count n [m.name] = 0 :=
        List.count_eq_zero.2 (by simpa using Ne.symm hne)
      rw [List.count_append, hz]
      exact Nat.add_zero _

theorem foldl_untouched (impls : String → PluginImpl)
    (ms : List PluginManifest) (n : String)
    (hnames : ∀ m' ∈ ms, m'.name ≠ n) :
    ∀ (st : PMState),
    (ms.foldl (PluginManager.loadStep impls) st).load_order.count n
      = st.load_order.count n ∧
    containsName (ms.foldl (PluginManager.loadStep impls) st).plugins n
      = containsName st.plugins n := by
  induction ms with
  | nil => exact fun st => ⟨rfl, rfl⟩
  | cons m rest ih =>
    intro st
    rw [List.foldl_cons]
    have hmn : m.name ≠ n := hnames m (List.mem_cons_self _ _)
    have hrest : ∀ m' ∈ rest, m'.name ≠ n :=
      fun m' hm' => hnames m' (List.mem_cons_of_mem _ hm')
    rcases loadStep_cases impls st m with hcase | ⟨hfree, tools, hscan, heq⟩
    · rw [hcase]
      exact ih hrest st
    · rw [heq]
      obtain ⟨ihc, ihm⟩ := ih hrest
        { plugins := st.plugins ++ [(m.name, tools)],
          manifests := st.manifests ++ [(m.name, m)],
          load_order := st.load_order ++ [m.name] }
      constructor
      · rw [ihc]
        show (st.load_order ++ [m.name]).count n = st.load_order.count n
        have hz : List.count n [m.name] = 0 :=
          List.count_eq_zero.2 (by simpa using Ne.symm hmn)
        rw [List.count_append, hz]
        exact Nat.add_zero _
      · rw [ihm]
        show containsName (st.plugins ++ [(m.name, tools)]) n
          = containsName st.plugins n
        unfold containsName
        rw [List.any_append]
        have hone : List.any [(m.name, tools)] (fun p => decide (p.1 = n))
            = false := by simp [hmn]
        rw [hone, Bool.or_false]

/-! ## Phase-sequence helper lemmas -/

theorem mem_phaseLoadSequence (d : List PluginManifest) (t : PluginTiming)
    (m : PluginManifest) (h1 : m ∈ d) (h2 : m.timing = t) :
    m ∈ PluginManager.phaseLoadSequence d t :=
  ((sortByPriorityDesc_perm _).mem_iff).2
    (List.mem_filter.2 ⟨h1, by simp [h2]⟩)

theorem phaseLoadSequence_mem_inv (d : List PluginManifest)
    (t : PluginTiming) (m' : PluginManifest)
    (h : m' ∈ PluginManager.phaseLoadSequence d t) :
    m' ∈ d ∧ m'.timing = t := by
  have h1 := ((sortByPriorityDesc_perm _).mem_iff).1 h
  have h2 := List.mem_filter.1 h1
  exact ⟨h2.1, by simpa using h2.2⟩

theorem phaseLoadSequence_names_nodup (d : List PluginManifest)
    (t : PluginTiming) (h : (d.map PluginManifest.name).Nodup) :
    ((PluginManager.phaseLoadSequence d t).map PluginManifest.name).Nodup := by
  have h1 : ((d.filter (fun m => decide (m.timing = t))).map
      PluginManifest.name).Nodup :=
    List.Nodup.sublist ((List.filter_sublist d).map PluginManifest.name) h
  exact (((sortByPriorityDesc_perm _).map PluginManifest.name).nodup_iff).2 h1

/-! ## C2 — phase filtering and idempotent loading -/

/-- C2: a discovered manifest of timing `X` (names being unique, as the
manifest model requires) is left unloaded by a `load_plugins` call for a
phase `Y ≠ X`; a `load_plugins(X)` call loads it exactly once even when
invoked twice (its name is appended to the load order exactly once overall,
provided its code unit initializes and scans cleanly); and a name already
present in the plugin registry is never loaded again by any later or
repeated phase call. -/
theorem phase_load_idempotent_c2 (impls : String → PluginImpl)
    (discovered : List PluginManifest) (s : PMState) :
    (∀ (m : PluginManifest) (X Y : PluginTiming), m ∈ discovered →
      m.timing = X → Y ≠ X →
      (discovered.map PluginManifest.name).Nodup →
      containsName s.plugins m.name = false →
      containsName (PluginManager.load_plugins impls discovered Y
        s).plugins m.name = false) ∧
    (∀ (m : PluginManifest) (X : PluginTiming), m ∈ discovered →
      m.timing = X →
      (discovered.map PluginManifest.name).Nodup →
      (impls m.name).initOk = true →
      ((impls m.name).toolMethods.map ToolMethod.resolvedName).Nodup →
      containsName s.plugins m.name = false →
      (PluginManager.load_plugins impls discovered X
          (PluginManager.load_plugins impls discovered X
            s)).load_order.count m.name
        = s.load_order.count m.name + 1) ∧
    (∀ (n : String) (timing : PluginTiming),
      containsName s.plugins n = true →
      (PluginManager.load_plugins impls discovered timing
        s).load_order.count n = s.load_order.count n) := by
  refine ⟨fun m X Y hmem htim hYX hnodup hfree => ?_,
    fun m X hmem htim hnodup hinit htools hfree => ?_,
    fun n timing h =>
      foldl_count_frozen impls (PluginManager.phaseLoadSequence discovered
        timing) n s h⟩
  · cases hfin : containsName (PluginManager.load_plugins impls discovered Y
        s).plugins m.name with
    | false => rfl
    | true =>
      exfalso
      rcases foldl_origin_plugins impls
          (PluginManager.phaseLoadSequence discovered Y) m.name s hfin with
        h' | ⟨m', hm', hname, -⟩
      · rw [hfree] at h'
        exact Bool.false_ne_true h'
      · obtain ⟨hmem', htim'⟩ := phaseLoadSequence_mem_inv discovered Y m' hm'
        have heq : m' = m := List.inj_on_of_nodup_map hnodup hmem' hmem hname
        rw [heq, htim] at htim'
        exact hYX htim'.symm
  · obtain ⟨l1, l2, hseq⟩ :=
      List.append_of_mem (mem_phaseLoadSequence discovered X m hmem htim)
    have hnodupseq := phaseLoadSequence_names_nodup discovered X hnodup
    rw [hseq, List.map_append, List.map_cons, List.nodup_append]
      at hnodupseq
    obtain ⟨hn1, hn2, hdisj⟩ := hnodupseq
    have h2 : ∀ m' ∈ l2, m'.name ≠ m.name := by
      intro m' hm' heq
      exact (List.nodup_cons.1 hn2).1 (heq ▸ List.mem_map_of_mem _ hm')
    have h1 : ∀ m' ∈ l1, m'.name ≠ m.name := by
      intro m' hm' heq
      exact hdisj (List.mem_map_of_mem PluginManifest.name hm')
        (by rw [heq]; exact List.mem_cons_self _ _)
    have hfold : PluginManager.load_plugins impls discovered X s
        = l2.foldl (PluginManager.loadStep impls)
            (PluginManager.loadStep impls
              (l1.foldl (PluginManager.loadStep impls) s) m) := by
      show (PluginManager.phaseLoadSequence discovered X).foldl
        (PluginManager.loadStep impls) s = _
      rw [hseq, List.foldl_append, List.foldl_cons]
    obtain ⟨hc1, hm1⟩ := foldl_untouched impls l1 m.name h1 s
    obtain ⟨tools, hscan⟩ := scan_ok_of_nodup _ htools
    have hfreem : containsName
        (l1.foldl (PluginManager.loadStep impls) s).plugins m.name
        = false := hm1.trans hfree
    have hstep : PluginManager.loadStep impls
        (l1.foldl (PluginManager.loadStep impls) s) m
        = { plugins := (l1.foldl (PluginManager.loadStep impls) s).plugins
              ++ [(m.name, tools)],
            manifests := (l1.foldl (PluginManager.loadStep impls)
              s).manifests ++ [(m.name, m)],
            load_order := (l1.foldl (PluginManager.loadStep impls)
              s).load_order ++ [m.name] } := by
      simp [PluginManager.loadStep, PluginManager._load_plugin, hfreem,
        hinit, hscan]
    have hcontains2 : containsName
        ({ plugins := (l1.foldl (PluginManager.loadStep impls) s).plugins
             ++ [(m.name, tools)],
           manifests := (l1.foldl (PluginManager.loadStep impls)
             s).manifests ++ [(m.name, m)],
           load_order := (l1.foldl (PluginManager.loadStep impls)
             s).load_order ++ [m.name] } : PMState).plugins m.name
        = true := by
      unfold containsName
      rw [List.any_append]
      simp
    have hcount1 : (PluginManager.load_plugins impls discovered X
        s).load_order.count m.name = s.load_order.count m.name + 1 := by
      rw [hfold, hstep, foldl_count_frozen impls l2 m.name _ hcontains2]
      show ((l1.foldl (PluginManager.loadStep impls) s).load_order
        ++ [m.name]).count m.name = _
      rw [List.count_append, hc1]
      simp
    have hcontains_after1 : containsName
        (PluginManager.load_plugins impls discovered X s).plugins m.name
        = true := by
      rw [hfold, hstep]
      exact foldl_contains_mono impls l2 m.name _ hcontains2
    exact (foldl_count_frozen impls
      (PluginManager.phaseLoadSequence discovered X)
      m.name (PluginManager.load_plugins impls discovered X s)
      hcontains_after1).trans hcount1

/-- Witness for C2 at concrete inputs: `foo` is a pre-init manifest and
`bar` a default-phase manifest; loading the default phase leaves `foo`
unloaded, loading pre-init twice loads `foo` exactly once, and a name
already registered is never appended again. -/
theorem phase_load_idempotent_c2_witness :
    (containsName (PluginManager.load_plugins (fun _ => ⟨[], true⟩)
        [⟨"foo", "", PluginType.CORE, PluginTiming.PRE_INIT, 0⟩,
         ⟨"bar", "", PluginType.CORE, PluginTiming.DEFAULT, 0⟩]
        PluginTiming.DEFAULT ⟨[], [], []⟩).plugins "foo" = false) ∧
    ((PluginManager.load_plugins (fun _ => ⟨[], true⟩)
        [⟨"foo", "", PluginType.CORE, PluginTiming.PRE_INIT, 0⟩,
         ⟨"bar", "", PluginType.CORE, PluginTiming.DEFAULT, 0⟩]
        PluginTiming.PRE_INIT
        (PluginManager.load_plugins (fun _ => ⟨[], true⟩)
          [⟨"foo", "", PluginType.CORE, PluginTiming.PRE_INIT, 0⟩,
           ⟨"bar", "", PluginType.CORE, PluginTiming.DEFAULT, 0⟩]
          PluginTiming.PRE_INIT ⟨[], [], []⟩)).load_order.count "foo"
      = 1) ∧
    ((PluginManager.load_plugins (fun _ => ⟨[], true⟩)
        [⟨"baz", "", PluginType.CORE, PluginTiming.DEFAULT, 0⟩]
        PluginTiming.DEFAULT
        ⟨[("baz", [])], [], ["baz"]⟩).load_order.count "baz" = 1) := by
  refine ⟨?_, ?_, ?_⟩
  · exact (phase_load_idempotent_c2 (fun _ => ⟨[], true⟩)
      [⟨"foo", "", PluginType.CORE, PluginTiming.PRE_INIT, 0⟩,
       ⟨"bar", "", PluginType.CORE, PluginTiming.DEFAULT, 0⟩]
      ⟨[], [], []⟩).1
      ⟨"foo", "", PluginType.CORE, PluginTiming.PRE_INIT, 0⟩
      PluginTiming.PRE_INIT PluginTiming.DEFAULT (by decide) rfl
      (by decide) (by decide) rfl
  · exact (phase_load_idempotent_c2 (fun _ => ⟨[], true⟩)
      [⟨"foo", "", PluginType.CORE, PluginTiming.PRE_INIT, 0⟩,
       ⟨"bar", "", PluginType.CORE, PluginTiming.DEFAULT, 0⟩]
      ⟨[], [], []⟩).2.1
      ⟨"foo", "", PluginType.CORE, PluginTiming.PRE_INIT, 0⟩
      PluginTiming.PRE_INIT (by decide) rfl (by decide) rfl (by decide) rfl
  · exact (phase_load_idempotent_c2 (fun _ => ⟨[], true⟩)
      [⟨"baz", "", PluginType.CORE, PluginTiming.DEFAULT, 0⟩]
      ⟨[("baz", [])], [], ["baz"]⟩).2.2 "baz" PluginTiming.DEFAULT rfl

/-! ## C6 — duplicate tool names -/

/-- C6: a plugin instance whose tool-marked methods resolve to a duplicated
tool name makes `_load_plugin` raise before registration, and afterwards no
`load_plugins` call can put that name into the plugin registry or the
load-order list (any manifest of that name scans the same failing
instance); duplicate tool names across two different plugins are permitted
and both plugins load. -/
theorem duplicate_tool_name_c6 :
    (∀ (impls : String → PluginImpl) (m : PluginManifest) (s : PMState),
      ¬ ((impls m.name).toolMethods.map ToolMethod.resolvedName).Nodup →
      (∃ e, PluginManager._load_plugin impls m s = .error e) ∧
      (∀ (discovered : List PluginManifest) (timing : PluginTiming),
        containsName s.plugins m.name = false →
        containsName (PluginManager.load_plugins impls discovered timing
          s).plugins m.name = false ∧
        (m.name ∈ (PluginManager.load_plugins impls discovered timing
          s).load_order ↔ m.name ∈ s.load_order))) ∧
    (∀ (impls : String → PluginImpl) (m1 m2 : PluginManifest) (s : PMState),
      m1.name ≠ m2.name →
      (impls m1.name).initOk = true → (impls m2.name).initOk = true →
      ((impls m1.name).toolMethods.map ToolMethod.resolvedName).Nodup →
      ((impls m2.name).toolMethods.map ToolMethod.resolvedName).Nodup →
      ∃ s1 s2, PluginManager._load_plugin impls m1 s = .ok s1 ∧
        PluginManager._load_plugin impls m2 s1 = .ok s2 ∧
        containsName s2.plugins m1.name = true ∧
        containsName s2.plugins m2.name = true) := by
  constructor
  · intro impls m s hdup
    have hscanerr := scan_error_of_dup _ hdup
    constructor
    · by_cases hinit : (impls m.name).initOk = true
      · obtain ⟨e, hscan⟩ := hscanerr
        exact ⟨e, by simp [PluginManager._load_plugin, hinit, hscan]⟩
      · exact ⟨"Failed to initialize plugin",
          by simp [PluginManager._load_plugin, hinit]⟩
    · intro discovered timing hfree
      have hnoscan : ∀ tools,
          PluginManager._scan_for_tools (impls m.name).toolMethods
            ≠ .ok tools := by
        intro tools hok
        obtain ⟨e, herr⟩ := hscanerr
        rw [hok] at herr
        exact Except.noConfusion herr
      constructor
      · cases hfin : containsName (PluginManager.load_plugins impls
            discovered timing s).plugins m.name with
        | false => rfl
        | true =>
          exfalso
          rcases foldl_origin_plugins impls
              (PluginManager.phaseLoadSequence discovered timing) m.name s
              hfin with h' | ⟨m', hm', hname, tools, htools⟩
          · rw [hfree] at h'
            exact Bool.false_ne_true h'
          · exact hnoscan tools htools
      · constructor
        · intro hmem
          rcases foldl_origin_order impls
              (PluginManager.phaseLoadSequence discovered timing) m.name s
              hmem with h' | ⟨m', hm', hname, tools, htools⟩
          · exact h'
          · exact absurd htools (hnoscan tools)
        · intro hmem
          exact foldl_order_mono impls _ m.name s hmem
  · intro impls m1 m2 s hne hinit1 hinit2 htools1 htools2
    obtain ⟨t1, hscan1⟩ := scan_ok_of_nodup _ htools1
    obtain ⟨t2, hscan2⟩ := scan_ok_of_nodup _ htools2
    refine ⟨{ plugins := s.plugins ++ [(m1.name, t1)],
              manifests := s.manifests ++ [(m1.name, m1)],
              load_order := s.load_order ++ [m1.name] },
            { plugins := (s.plugins ++ [(m1.name, t1)]) ++ [(m2.name, t2)],
              manifests := (s.manifests ++ [(m1.name, m1)])
                ++ [(m2.name, m2)],
              load_order := (s.load_order ++ [m1.name]) ++ [m2.name] },
            ?_, ?_, ?_, ?_⟩
    · simp [PluginManager._load_plugin, hinit1, hscan1]
    · simp [PluginManager._load_plugin, hinit2, hscan2]
    · unfold containsName
      rw [List.any_append, List.any_append]
      simp
    · unfold containsName
      rw [List.any_append]
      simp

/-- Witness for C6 at concrete inputs: a plugin whose two marked methods
both resolve to tool name `t` fails to load and stays out of the registry,
while two distinct plugins each exposing a tool named `t` both load. -/
theorem duplicate_tool_name_c6_witness :
    (∃ e, PluginManager._load_plugin
        (fun _ => ⟨[⟨"a", some "t", none, none⟩, ⟨"b", some "t", none,
          none⟩], true⟩)
        ⟨"dup", "", PluginType.CORE, PluginTiming.DEFAULT, 0⟩ ⟨[], [], []⟩
        = .error e) ∧
    (∃ s1 s2, PluginManager._load_plugin
        (fun _ => ⟨[⟨"a", some "t", none, none⟩], true⟩)
        ⟨"p1", "", PluginType.CORE, PluginTiming.DEFAULT, 0⟩ ⟨[], [], []⟩
        = .ok s1 ∧
      PluginManager._load_plugin
        (fun _ => ⟨[⟨"a", some "t", none, none⟩], true⟩)
        ⟨"p2", "", PluginType.CORE, PluginTiming.DEFAULT, 0⟩ s1 = .ok s2 ∧
      containsName s2.plugins "p1" = true ∧
      containsName s2.plugins "p2" = true) := by
  constructor
  · exact (duplicate_tool_name_c6.1
      (fun _ => ⟨[⟨"a", some "t", none, none⟩, ⟨"b", some "t", none,
        none⟩], true⟩)
      ⟨"dup", "", PluginType.CORE, PluginTiming.DEFAULT, 0⟩ ⟨[], [], []⟩
      (by decide)).1
  · exact duplicate_tool_name_c6.2
      (fun _ => ⟨[⟨"a", some "t", none, none⟩], true⟩)
      ⟨"p1", "", PluginType.CORE, PluginTiming.DEFAULT, 0⟩
      ⟨"p2", "", PluginType.CORE, PluginTiming.DEFAULT, 0⟩ ⟨[], [], []⟩
      (by decide) rfl rfl (by decide) (by decide)

end ArtReactor
